import Mathlib

set_option maxRecDepth 10000

/-!
Verification of the pyfed federation core against its specification.

The Python sources under `src/pyfed` are shallowly embedded below:
pure functions become Lean functions, stateful methods become explicit
state passing, fallible methods return `Except`.  Python `dict`s keyed by
strings become association lists with insertion-order-preserving update
(`dictInsert`), matching CPython semantics.  Times are modelled as `Int`
seconds since the epoch.
-/

namespace PyFed

/-- Decidable equality for `Except`, for evaluating the embedding's
fallible functions on concrete inputs. -/
instance {ε α : Type} [DecidableEq ε] [DecidableEq α] :
    DecidableEq (Except ε α) := fun a b =>
  match a, b with
  | .ok x, .ok y =>
      if h : x = y then .isTrue (by rw [h])
      else .isFalse (by intro hc; cases hc; exact h rfl)
  | .error x, .error y =>
      if h : x = y then .isTrue (by rw [h])
      else .isFalse (by intro hc; cases hc; exact h rfl)
  | .ok _, .error _ => .isFalse (by intro hc; cases hc)
  | .error _, .ok _ => .isFalse (by intro hc; cases hc)

/-! ## Python dict model (string-keyed, insertion ordered) -/

/-- Lookup in a string-keyed dict, as `d[k]` / `k in d`.  Keys built via
`dictInsert` are unique, so first match equals the dict entry. -/
def dictGet? {α : Type} : List (String × α) → String → Option α
  | [], _ => none
  | kv :: rest, k => if kv.1 = k then some kv.2 else dictGet? rest k

/-- `d.get(k, dflt)`. -/
def dictGetD {α : Type} (m : List (String × α)) (k : String) (dflt : α) : α :=
  (dictGet? m k).getD dflt

/-- `k in d`. -/
def dictContains {α : Type} (m : List (String × α)) (k : String) : Bool :=
  (dictGet? m k).isSome

/-- `d[k] = v`: replace in place if the key exists (CPython keeps the
original insertion position), else append. -/
def dictInsert {α : Type} (m : List (String × α)) (k : String) (v : α) :
    List (String × α) :=
  if dictContains m k then
    m.map (fun kv => if kv.1 = k then (k, v) else kv)
  else m ++ [(k, v)]

/-- `del d[k]` / removal from a redis sorted set (`zrem`). -/
def dictErase {α : Type} (m : List (String × α)) (k : String) :
    List (String × α) :=
  m.filter (fun kv => kv.1 ≠ k)

/-- Request headers: a Python dict from header name to value.  Lookups in
the source are case-sensitive dict lookups unless the code lowercases
explicitly, and the embedding mirrors that. -/
abbrev Headers := List (String × String)

/-! ## JSON values and `json.dumps`

`Json` mirrors the Python dicts/lists/scalars that activity bodies are
made of.  Mutual inductives stand in for the nested `List` so that the
serializers are structurally recursive. -/

mutual
inductive Json where
  | jnull : Json
  | jbool : Bool → Json
  | jnum : Int → Json
  | jstr : String → Json
  | jarr : JsonArr → Json
  | jobj : JsonObj → Json
deriving DecidableEq

inductive JsonArr where
  | anil : JsonArr
  | acons : Json → JsonArr → JsonArr
deriving DecidableEq

inductive JsonObj where
  | onil : JsonObj
  | ocons : String → Json → JsonObj → JsonObj
deriving DecidableEq
end

/-- JSON string escaping as `json.dumps` performs it, modelled for the
plain-ASCII strings this development uses (quote, backslash, newline). -/
def jsonEscapeChar (c : Char) : String :=
  if c = '"' then "\\\""
  else if c = '\\' then "\\\\"
  else if c = '\n' then "\\n"
  else String.singleton c

/-- A JSON string literal with its quotes. -/
def jsonQuote (s : String) : String :=
  "\"" ++ String.join (s.toList.map jsonEscapeChar) ++ "\""

/-- Insert a rendered `(key, piece)` into a list sorted by key;
`sort_keys=True` sorts each object's keys by code-point order, which is
Lean's `String` order. -/
def sortedFieldInsert (kv : String × String) :
    List (String × String) → List (String × String)
  | [] => [kv]
  | hd :: tl =>
      if kv.1 < hd.1 then kv :: hd :: tl
      else hd :: sortedFieldInsert kv tl

/-- Sort rendered object fields by key (`sort_keys=True`). -/
def sortFields : List (String × String) → List (String × String)
  | [] => []
  | hd :: tl => sortedFieldInsert hd (sortFields tl)

mutual
/-- `json.dumps(v, sort_keys=True, separators=(isep, ksep))`: every
object's keys are sorted, items joined by `isep`, key and value joined
by `ksep`. -/
def dumpJson (isep ksep : String) : Json → String
  | .jnull => "null"
  | .jbool b => if b then "true" else "false"
  | .jnum n => toString n
  | .jstr s => jsonQuote s
  | .jarr xs => "[" ++ String.intercalate isep (dumpArrElems isep ksep xs) ++ "]"
  | .jobj fs =>
      "\x7b" ++
        String.intercalate isep
          ((sortFields (dumpObjFields isep ksep fs)).map (fun kv => kv.2)) ++
      "\x7d"

/-- Render the elements of a JSON array. -/
def dumpArrElems (isep ksep : String) : JsonArr → List String
  | .anil => []
  | .acons x rest => dumpJson isep ksep x :: dumpArrElems isep ksep rest

/-- Render object fields to `(key, "key" ++ ksep ++ value)` pairs, to be
sorted by key afterwards. -/
def dumpObjFields (isep ksep : String) : JsonObj → List (String × String)
  | .onil => []
  | .ocons k v rest =>
      (k, jsonQuote k ++ ksep ++ dumpJson isep ksep v) ::
        dumpObjFields isep ksep rest
end

/-- `ActivityPubSerializer.to_json_string`: compact separators
`(',', ':')` with `sort_keys=True` (serializers/json_serializer.py). -/
def toJsonString (b : Json) : String := dumpJson "," ":" b

/-- The serialization `verify_request` recomputes inline:
`json.dumps(body, sort_keys=True)` with the *default* separators
`(', ', ': ')` (security/http_signatures.py, digest check). -/
def jsonDumpsSorted (b : Json) : String := dumpJson ", " ": " b

/-! ## Cryptographic primitives, modelled

SHA-256, base64 and deterministic RSA-PKCS#1v1.5 signing are external
library calls.  They are modelled symbolically: `encodeBytes` is an
injective bytes-to-text encoding standing for base64 output (its image
uses only digits and dots, so — like real base64 — it contains none of
the characters the header grammar splits on), `rsaSignB64` is the
base64 of a deterministic signature by the key numbered `key`, and
`rsaVerifyB64` accepts exactly the signature that the matching key
produced over exactly the same bytes (ideal unforgeability, determinism
of PKCS#1v1.5, and collision-free hashing). -/

def encodeBytes (s : String) : String :=
  String.intercalate "." (s.toList.map (fun c => toString c.toNat))

/-- Modelled `base64.b64encode(hashlib.sha256(s).digest())`. -/
def sha256base64 (s : String) : String := encodeBytes s

/-- Modelled `base64(private_key.sign(msg, PKCS1v15, SHA256))`. -/
def rsaSignB64 (key : Nat) (msg : String) : String :=
  toString key ++ "x" ++ encodeBytes msg

/-- Modelled `public_key.verify(b64decode(sig), msg, PKCS1v15, SHA256)`:
true exactly when `sig` is the matching private key's signature of
`msg`. -/
def rsaVerifyB64 (key : Nat) (sigB64 msg : String) : Bool :=
  sigB64 == rsaSignB64 key msg

/-! ## Dates

RFC1123 formatting/parsing (`strftime`/`strptime` with
`'%a, %d %b %Y %H:%M:%S GMT'`) is modelled as an injective encoding of
a UTC timestamp in seconds; only the round-trip and the timestamp
arithmetic matter to the code under verification. -/

/-- Digits-to-number accumulator for `pyInt?`; `none` on a non-digit or
on the empty string, as `int()` raises there. -/
def digitsToNat? : List Char → Option Nat
  | [] => none
  | cs =>
      cs.foldl
        (fun acc c =>
          match acc with
          | none => none
          | some n => if c.isDigit then some (10 * n + (c.toNat - 48)) else none)
        (some 0)

/-- Split a character list at every occurrence of `c` (the separators
the source splits on — `','`, `'='`, `' '` — are single characters). -/
def splitCharList (c : Char) : List Char → List (List Char)
  | [] => [[]]
  | x :: xs =>
      let r := splitCharList c xs
      if x = c then [] :: r
      else
        match r with
        | [] => [[x]]
        | hd :: tl => (x :: hd) :: tl

/-- Python `s.split(c)` for a one-character separator. -/
def strSplitChar (c : Char) (s : String) : List String :=
  (splitCharList c s.toList).map String.mk

/-- Split a character list at every character satisfying `p`. -/
def splitPredList (p : Char → Bool) : List Char → List (List Char)
  | [] => [[]]
  | x :: xs =>
      let r := splitPredList p xs
      if p x then [] :: r
      else
        match r with
        | [] => [[x]]
        | hd :: tl => (x :: hd) :: tl

/-- Python `str.lower()` (the sources only lowercase ASCII header names
and methods). -/
def strToLower (s : String) : String :=
  String.mk (s.toList.map Char.toLower)

/-- Python `str.strip()`: drop surrounding whitespace. -/
def pyStrip (s : String) : String :=
  String.mk
    (((s.toList.dropWhile Char.isWhitespace).reverse.dropWhile
        Char.isWhitespace).reverse)

/-- Python `int(s)`: optional surrounding whitespace, optional sign,
decimal digits; `none` where `int()` raises `ValueError`. -/
def pyInt? (s : String) : Option Int :=
  match (pyStrip s).toList with
  | '-' :: rest => (digitsToNat? rest).map (fun n => -(n : Int))
  | '+' :: rest => (digitsToNat? rest).map (fun n => (n : Int))
  | cs => (digitsToNat? cs).map (fun n => (n : Int))

/-- Modelled `now.strftime('%a, %d %b %Y %H:%M:%S GMT')`. -/
def formatHTTPDate (t : Int) : String := "HTTPDate " ++ toString t

/-- Modelled `datetime.strptime(s, '%a, %d %b %Y %H:%M:%S GMT')`,
returning `none` where Python raises. -/
def parseHTTPDate (s : String) : Option Int :=
  match strSplitChar ' ' s with
  | [tag, t] => if tag = "HTTPDate" then pyInt? t else none
  | _ => none

/-! ## SignatureEngine (security/http_signatures.py) -/

/-- `HTTPSignatureVerifier._generate_digest`: SHA-256 of the
`to_json_string` serialization, base64, prefixed `SHA-256=`. -/
def generateDigest (body : Json) : String :=
  "SHA-256=" ++ sha256base64 (toJsonString body)

/-- The digest value `verify_request` compares against: recomputed
inline from `json.dumps(body, sort_keys=True)` (default separators),
not from `_generate_digest`. -/
def verifyDigestValue (body : Json) : String :=
  "SHA-256=" ++ sha256base64 (jsonDumpsSorted body)

/-- `HTTPSignatureVerifier._build_signing_string`: lowercases the
header map, then for each entry of `signedHeaders` emits
`(request-target): <lowercased method> <path>` or `name: value`,
raising `SignatureError` on the first name missing from the lowercased
map. -/
def buildSigningString (method path : String) (headers : Headers)
    (signedHeaders : List String) : Except String String :=
  let headersLower : Headers :=
    headers.foldl (fun m kv => dictInsert m (strToLower kv.1) kv.2) []
  let step : Except String (List String) → String →
      Except String (List String) := fun acc h =>
    match acc with
    | .error e => .error e
    | .ok lines =>
        if h = "(request-target)" then
          .ok (lines ++
            ["(request-target): " ++ strToLower method ++ " " ++ path])
        else
          let hl := strToLower h
          match dictGet? headersLower hl with
          | none => .error ("Missing required header: " ++ h)
          | some v => .ok (lines ++ [hl ++ ": " ++ v])
  match signedHeaders.foldl step (.ok []) with
  | .error e => .error e
  | .ok lines => .ok (String.intercalate "\n" lines)

/-- `HTTPSignatureVerifier.sign_request`.  `now` is the resolved clock
(`self._test_now` when set, else `datetime.utcnow()`); `privKey` and
`keyId` are the active key pair, from the key manager or the loaded key
paths (both branches yield exactly a private key and a key id; the
"no active key" branch raises and is orthogonal to the claims below).
Adds `date` if absent, adds `digest` when a body is given, signs the
fixed list `(request-target) host date digest`, and returns the headers
extended with the `Signature` header (note the capital S, as in the
source).  All raises become `SignatureError`, modelled as `.error`. -/
def signRequest (now : Int) (privKey : Nat) (keyId : String)
    (method path : String) (headers : Headers) (body : Option Json) :
    Except String Headers :=
  let requestHeaders := headers
  let requestHeaders :=
    if dictContains requestHeaders "date" then requestHeaders
    else dictInsert requestHeaders "date" (formatHTTPDate now)
  let requestHeaders :=
    match body with
    | some b => dictInsert requestHeaders "digest" (generateDigest b)
    | none => requestHeaders
  let headersToSign := ["(request-target)", "host", "date", "digest"]
  match buildSigningString method path requestHeaders headersToSign with
  | .error e => .error ("Request signing failed: " ++ e)
  | .ok signingString =>
      let signature := rsaSignB64 privKey signingString
      let signatureHeader :=
        "keyId=\"" ++ keyId ++ "\"," ++
        "algorithm=\"rsa-sha256\"," ++
        "headers=\"" ++ String.intercalate " " headersToSign ++ "\"," ++
        "signature=\"" ++ signature ++ "\""
      .ok (dictInsert requestHeaders "Signature" signatureHeader)

/-- `value.strip(' "')`: drop leading and trailing spaces and double
quotes. -/
def stripSpaceQuote (s : String) : String :=
  let f : Char → Bool := fun c => c = ' ' || c = '"'
  String.mk (((s.toList.dropWhile f).reverse.dropWhile f).reverse)

/-- The signature-header parse inlined in `verify_request`: split on
`','`; parts without `'='` are skipped; each other part is split at its
first `'='` into a stripped key and a value stripped of spaces and
quotes; assignment into a dict, later occurrences overwriting. -/
def parseSignatureHeader (s : String) : Headers :=
  (strSplitChar ',' s).foldl
    (fun m part =>
      match strSplitChar '=' part with
      | [] => m
      | [_] => m
      | k :: rest =>
          dictInsert m (pyStrip k)
            (stripSpaceQuote (String.intercalate "=" rest)))
    []

/-- `sig_parts['headers'].split()`: split on whitespace, dropping empty
pieces. -/
def splitWhitespace (s : String) : List String :=
  ((splitPredList (fun c => c.isWhitespace) s.toList).map String.mk).filter
    (fun t => t ≠ "")

/-- The signing-string rebuild inlined in `verify_request` (NOT
`_build_signing_string`): iterate the declared list; `(request-target)`
gets its line; a declared name present in the header map (case-sensitive
`header in headers`) gets `name: value`; an absent declared name is
silently skipped. -/
def rebuildSigningString (method path : String) (headers : Headers)
    (signedHeaders : List String) : String :=
  String.intercalate "\n"
    (signedHeaders.filterMap (fun h =>
      if h = "(request-target)" then
        some ("(request-target): " ++ strToLower method ++ " " ++ path)
      else
        match dictGet? headers h with
        | some v => some (h ++ ": " ++ v)
        | none => none))

/-- `HTTPSignatureVerifier.verify_request` after the signature header
has been parsed into components.  `resolve` is `self._get_public_key`.
Modelled from the spec: `_get_public_key` is called by `verify_request`
but its definition is absent from the sources; the spec says
"Resolve `keyId` to a public key via an external key-resolution
collaborator", so it is modelled as a function from key id to an
optional public key.  Order of checks as in the source: required
components, non-empty keyId, digest (only when a body is supplied and a
`digest` header exists, against `verifyDigestValue`), signing-string
rebuild, key resolution, signature check; any failure yields `false`. -/
def verifyFromParts (resolve : String → Option Nat) (method path : String)
    (headers : Headers) (body : Option Json) (sigParts : Headers) : Bool :=
  if !(dictContains sigParts "keyId" && dictContains sigParts "headers" &&
       dictContains sigParts "signature") then false
  else
    let keyId := dictGetD sigParts "keyId" ""
    if keyId = "" then false
    else
      let digestFails : Bool :=
        match body with
        | some b =>
            if dictContains headers "digest" then
              dictGetD headers "digest" "" != verifyDigestValue b
            else false
        | none => false
      if digestFails then false
      else
        let signedHeaders := splitWhitespace (dictGetD sigParts "headers" "")
        let signingString := rebuildSigningString method path headers signedHeaders
        match resolve keyId with
        | none => false
        | some pub => rsaVerifyB64 pub (dictGetD sigParts "signature" "") signingString

/-- `HTTPSignatureVerifier.verify_request`: `false` when no
`signature` header (case-sensitive lookup), else parse and check.
Nothing in the body of `verify_request` reads a clock or calls
`_verify_date`, so the embedding takes no time parameter. -/
def verifyRequest (resolve : String → Option Nat) (headers : Headers)
    (method path : String) (body : Option Json) : Bool :=
  if !dictContains headers "signature" then false
  else
    verifyFromParts resolve method path headers body
      (parseSignatureHeader (dictGetD headers "signature" ""))

/-- `HTTPSignatureVerifier._verify_date`: parse the date header, take
`self._test_now` if set else `utcnow()`, and accept exactly within
±5 minutes (300 s).  (Defined in the source but never called by
`verify_request`.) -/
def verifyDate (testNow : Option Int) (realNow : Int)
    (dateHeader : Option String) : Bool :=
  match dateHeader with
  | none => false
  | some s =>
      match parseHTTPDate s with
      | none => false
      | some t =>
          let now := testNow.getD realNow
          decide (now - 300 ≤ t) && decide (t ≤ now + 300)

/-! ## DeliveryEngine (federation/delivery.py) -/

/-- One HTTP response as `deliver_to_inbox` consumes it: status code,
parsed `Retry-After` header when present, and the body text used for
error messages. -/
structure HttpResponse where
  status : Nat
  retryAfter : Option Int
  bodyText : String
deriving DecidableEq

/-- `DeliveryResult` (dataclass), after `__post_init__` replaced `None`
lists by empty ones. -/
structure DeliveryResultM where
  success : List String := []
  failed : List String := []
  statusCode : Option Nat := none
  errorMessage : Option String := none
deriving DecidableEq

/-- The retry decision in `deliver_to_inbox`, exactly as parenthesized
in the source:
`response.status == 429 or (response.status >= 500 and retry_count < self.max_retries)`.
The `retry_count < max_retries` bound guards only the 5xx arm. -/
def retryCondition (maxRetries status retryCount : Nat) : Bool :=
  status == 429 || (500 ≤ status && retryCount < maxRetries)

/-- `ActivityDelivery.deliver_to_inbox`, control flow of one delivery:
`responses n` is the response the server gives to attempt with
`retry_count = n`.  Rate-limiter gating and the backoff sleeps are
cooperative delays that do not alter which branch runs, and the
signing/POST plumbing does not feed back into the retry decision, so
the embedding keeps the branch structure on the response status:
200/201/202 succeed; `retryCondition` recurses with `retry_count + 1`;
anything else is a permanent failure carrying status and body text.
`fuel` bounds the recursion depth of the embedding only: a `none`
result means the source function is still recursing after `fuel`
attempts (the Python recursion has no such bound). -/
def deliverToInboxFuel (maxRetries : Nat) (responses : Nat → HttpResponse)
    (inboxUrl : String) : Nat → Nat → Option DeliveryResultM
  | _, 0 => none
  | retryCount, fuel + 1 =>
      let resp := responses retryCount
      if resp.status = 200 ∨ resp.status = 201 ∨ resp.status = 202 then
        some { success := [inboxUrl], statusCode := some resp.status }
      else if retryCondition maxRetries resp.status retryCount then
        deliverToInboxFuel maxRetries responses inboxUrl (retryCount + 1) fuel
      else
        some { failed := [inboxUrl], statusCode := some resp.status,
               errorMessage := some resp.bodyText }

/-! ## DeliveryQueue (federation/queue.py) -/

/-- `DeliveryStatus` enum. -/
inductive DeliveryStatus where
  | pending
  | inProgress
  | completed
  | failed
  | retrying
deriving DecidableEq

/-- `QueuedDelivery` dataclass (activity payload and recipients are
opaque to the worker logic and elided from the record). -/
structure QueuedDeliveryM where
  id : String
  attempts : Nat
  status : DeliveryStatus
  nextAttempt : Int
  updatedAt : Int
  error : Option String := none
deriving DecidableEq

/-- The queue's redis state: the `delivery:{id}` records and the
`delivery_queue` sorted set (member to score). -/
structure QueueState where
  records : List (String × QueuedDeliveryM)
  schedule : List (String × Int)
deriving DecidableEq

/-- `DeliveryQueue._process_delivery`.  `deliver` is the outcome of
`self.delivery_service.deliver_activity(...)`.  Modelled from the spec:
`deliver_activity` has no definition on `ActivityDelivery` in the
sources; the spec's DeliveryEngine "Return always carries success or
failed plus diagnostic", so the outcome is a `DeliveryResultM`
(`Except.ok`) or a raised exception (`Except.error`).  Mirrors the
source: load the record (absent ⇒ no-op); set IN_PROGRESS, increment
attempts, stamp `updated_at`; on a result with truthy `success` ⇒
COMPLETED; on a result without ⇒ FAILED with the result's error, then
if `attempts < max_attempts` ⇒ RETRYING with
`next_attempt = now + 2**attempts minutes` and a `zadd` at that score;
on an exception ⇒ FAILED with its message; store the record; `zrem`
when the final status is COMPLETED or FAILED. -/
def processDelivery (maxAttempts : Nat) (now : Int)
    (deliver : Except String DeliveryResultM) (qs : QueueState)
    (deliveryId : String) : QueueState :=
  match dictGet? qs.records deliveryId with
  | none => qs
  | some d0 =>
      let d1 : QueuedDeliveryM :=
        { d0 with status := .inProgress, attempts := d0.attempts + 1,
                  updatedAt := now }
      let next : QueuedDeliveryM × List (String × Int) :=
        match deliver with
        | .ok r =>
            if r.success ≠ [] then
              ({ d1 with status := .completed }, qs.schedule)
            else
              let dFail := { d1 with status := .failed, error := r.errorMessage }
              if d1.attempts < maxAttempts then
                let nextAt := now + 60 * (2 ^ d1.attempts)
                ({ dFail with status := .retrying, nextAttempt := nextAt },
                 dictInsert qs.schedule deliveryId nextAt)
              else
                (dFail, qs.schedule)
        | .error e => ({ d1 with status := .failed, error := some e }, qs.schedule)
      let qs1 : QueueState :=
        { records := dictInsert qs.records deliveryId next.1,
          schedule := next.2 }
      if next.1.status = .completed ∨ next.1.status = .failed then
        { qs1 with schedule := dictErase qs1.schedule deliveryId }
      else qs1

/-! ## RateLimiter (federation/rate_limit.py) with MemoryCache
(cache/memory_cache.py) -/

/-- `RateLimitState` dataclass. -/
structure RateLimitStateM where
  remaining : Int
  reset : Int
  limit : Int
deriving DecidableEq

/-- One `MemoryCache` slot: the stored state and its expiry instant. -/
structure CacheEntry where
  value : RateLimitStateM
  expiresAt : Int
deriving DecidableEq

/-- A `RateLimiter` instance: the default limit's `requests` and
`period`, the cache TTL, and the `MemoryCache` contents. -/
structure RLState where
  requests : Int
  period : Int
  ttl : Int
  cache : List (String × CacheEntry)
deriving DecidableEq

/-- Fresh limiter, cache empty. -/
def mkRateLimiter (requests period ttl : Int) : RLState :=
  { requests := requests, period := period, ttl := ttl, cache := [] }

/-- `MemoryCache.get`: miss on absent key; an entry whose expiry is
strictly past is deleted and reported as a miss. -/
def cacheGet (now : Int) (st : RLState) (key : String) :
    Option RateLimitStateM × RLState :=
  match dictGet? st.cache key with
  | none => (none, st)
  | some e =>
      if now > e.expiresAt then
        (none, { st with cache := dictErase st.cache key })
      else (some e.value, st)

/-- `MemoryCache.set` with the limiter's TTL (as `_set_state` calls it). -/
def cacheSet (now : Int) (st : RLState) (key : String)
    (v : RateLimitStateM) : RLState :=
  { st with cache := dictInsert st.cache key { value := v, expiresAt := now + st.ttl } }

/-- The limiter's cache key for a domain. -/
def rlKey (domain : String) : String := "ratelimit:" ++ domain

/-- A fresh per-domain state: full budget, window ending one period from
now. -/
def freshRLState (now : Int) (st : RLState) : RateLimitStateM :=
  { remaining := st.requests, reset := now + st.period, limit := st.requests }

/-- `RateLimiter._get_state`: cached state, or create-and-store a fresh
one. -/
def getRLState (now : Int) (st : RLState) (domain : String) :
    RateLimitStateM × RLState :=
  match cacheGet now st (rlKey domain) with
  | (some s, st1) => (s, st1)
  | (none, st1) =>
      let s := freshRLState now st1
      (s, cacheSet now st1 (rlKey domain) s)

/-- `RateLimiter.check_rate_limit`: reset the window if `now` has
reached `reset` (allow, budget restored to `requests` undecremented);
else deny when `remaining <= 0`; else decrement and allow. -/
def checkRateLimit (now : Int) (st : RLState) (domain : String) :
    Bool × RLState :=
  let (state, st1) := getRLState now st domain
  if now ≥ state.reset then
    (true, cacheSet now st1 (rlKey domain) (freshRLState now st1))
  else if state.remaining ≤ 0 then
    (false, st1)
  else
    (true, cacheSet now st1 (rlKey domain)
      { state with remaining := state.remaining - 1 })

/-- `RateLimiter.get_wait_time`: 0 when budget remains, else seconds
until `reset`, floored at 0. -/
def getWaitTime (now : Int) (st : RLState) (domain : String) :
    Int × RLState :=
  let (state, st1) := getRLState now st domain
  if state.remaining > 0 then (0, st1)
  else (max 0 (state.reset - now), st1)

/-- `RateLimiter.update_rate_limit`: when all three `X-RateLimit-*`
headers are present, overwrite the local state with their parsed
values verbatim; `int()` failure raises (state unchanged);
any header absent ⇒ no-op. -/
def updateRateLimit (now : Int) (st : RLState) (domain : String)
    (headers : Headers) : Except String RLState :=
  match dictGet? headers "X-RateLimit-Remaining",
        dictGet? headers "X-RateLimit-Reset",
        dictGet? headers "X-RateLimit-Limit" with
  | some r, some re, some l =>
      match pyInt? r, pyInt? re, pyInt? l with
      | some ri, some rei, some li =>
          .ok (cacheSet now st (rlKey domain)
            { remaining := ri, reset := rei, limit := li })
      | _, _, _ => .error "invalid literal for int()"
  | _, _, _ => .ok st

/-- One client-visible limiter operation, with the wall clock at which
it runs. -/
inductive RLOp where
  | check (domain : String) (now : Int)
  | wait (domain : String) (now : Int)
  | update (domain : String) (now : Int) (headers : Headers)

/-- Run a sequence of limiter operations, keeping only the state (an
`update` whose `int()` parse raises leaves the state unchanged, as the
exception propagates before any write). -/
def runRLOps (st : RLState) : List RLOp → RLState
  | [] => st
  | .check d t :: rest => runRLOps (checkRateLimit t st d).2 rest
  | .wait d t :: rest => runRLOps (getWaitTime t st d).2 rest
  | .update d t hs :: rest =>
      match updateRateLimit t st d hs with
      | .ok st1 => runRLOps st1 rest
      | .error _ => runRLOps st rest

/-! ## KeyManager (security/key_management.py) -/

/-- `KeyPair`: the RSA material is identified by `keyNum` (the modelled
key-pair identity used by `rsaSignB64`/`rsaVerifyB64`). -/
structure KeyPairM where
  keyNum : Nat
  createdAt : Int
  expiresAt : Int
  keyId : String
deriving DecidableEq

/-- A `KeyManager`: domain, `KeyRotation` policy (days), and the
`active_keys` dict keyed by key id in insertion order. -/
structure KeyManagerState where
  domain : String
  rotationIntervalDays : Nat
  keyOverlapDays : Nat
  activeKeys : List (String × KeyPairM)
deriving DecidableEq

/-- `KeyManager.generate_key_pair` at clock `now` (seconds): fresh RSA
material `freshKey`, `created_at = now`,
`expires_at = now + rotation_interval` days,
`key_id = https://{domain}/keys/{int(created_at.timestamp())}`, added
to the active dict.  (Disk persistence has no effect on the in-memory
state.) -/
def generateKeyPair (now : Int) (freshKey : Nat) (st : KeyManagerState) :
    KeyManagerState × KeyPairM :=
  let pair : KeyPairM :=
    { keyNum := freshKey, createdAt := now,
      expiresAt := now + 86400 * st.rotationIntervalDays,
      keyId := "https://" ++ st.domain ++ "/keys/" ++ toString now }
  ({ st with activeKeys := dictInsert st.activeKeys pair.keyId pair }, pair)

/-- `KeyManager.rotate_keys`: generate a new pair, then drop from the
active dict (archiving the files) every key with
`expires_at < now - key_overlap` days.  Returns the new pair alongside
the state (the source keeps it in `new_pair`). -/
def rotateKeys (now : Int) (freshKey : Nat) (st : KeyManagerState) :
    KeyManagerState × KeyPairM :=
  let gen := generateKeyPair now freshKey st
  let cutoff := now - 86400 * st.keyOverlapDays
  ({ gen.1 with activeKeys :=
      gen.1.activeKeys.filter (fun kv => !(kv.2.expiresAt < cutoff)) },
   gen.2)

/-- `KeyManager.get_active_key`: raise `KeyManagementError` when
`active_keys` is empty, else `max(active_keys.values(), key=created_at)`
— Python's `max` keeps the first of several maximal elements, hence the
fold that replaces only on strict increase. -/
def getActiveKey (st : KeyManagerState) : Except String KeyPairM :=
  match st.activeKeys with
  | [] => .error "No active keys available"
  | kv :: rest =>
      .ok (rest.foldl
        (fun best p => if best.2.createdAt < p.2.createdAt then p else best)
        kv).2

/-! ## Claim C1: sign/verify round trip -/

/-- The concrete activity body `\x7b"a": 1\x7d` of the round-trip
scenario. -/
def bodyC1 : Json := .jobj (.ocons "a" (.jnum 1) .onil)

/-- Key id of the signing key pair in the round-trip scenario. -/
def kidC1 : String := "https://local.test/keys/0"

/-- Key resolution for the round-trip scenario: `kidC1` resolves to the
public half of key pair 7, the very key `signRequest` signs with. -/
def resolveC1 : String → Option Nat :=
  fun kid => if kid = kidC1 then some 7 else none

/-- The headers `sign_request` returns in the round-trip scenario:
signing `\x7b"a": 1\x7d` as a POST to `/inbox` with a lone `host`
header, under key pair 7. -/
def signedC1 : Headers :=
  (signRequest 0 7 kidC1 "POST" "/inbox" [("host", "remote.test")]
    (some bodyC1)).toOption.getD []

/-- Lowercase every header name, as an HTTP transport that normalizes
header case would present the request to the receiver. -/
def lowerKeys (hs : Headers) : Headers :=
  hs.map (fun kv => (strToLower kv.1, kv.2))

/-- C1.  Round-trip FAILS on the code: for the concrete valid signing
input (body `\x7b"a": 1\x7d`, POST /inbox, host header, matching key
pair), `sign_request` succeeds, yet `verify_request` under the matching
public key returns `false` — both on the headers exactly as returned
(`Signature` key, capital S, is invisible to the case-sensitive
`'signature' in headers` lookup) and after transport-style lowercasing
of the header names (the digest check then fails: `sign_request`
digested the compact `to_json_string` serialization while
`verify_request` recomputes with `json.dumps` default separators, and
the two serializations of this body differ). -/
theorem c1_roundtrip_fails_on_code :
    signRequest 0 7 kidC1 "POST" "/inbox" [("host", "remote.test")]
        (some bodyC1) = .ok signedC1 ∧
    verifyRequest resolveC1 signedC1 "POST" "/inbox" (some bodyC1) = false ∧
    verifyRequest resolveC1 (lowerKeys signedC1) "POST" "/inbox"
        (some bodyC1) = false ∧
    toJsonString bodyC1 ≠ jsonDumpsSorted bodyC1 ∧
    generateDigest bodyC1 ≠ verifyDigestValue bodyC1 := by
  refine ⟨by decide, by decide, by decide, by decide, by decide⟩

/-! ## Claim C2: declared header list handling on verification -/

/-- Key id used by the hand-built inbound requests below. -/
def kidC2 : String := "https://peer.test/keys/1"

/-- Key resolution for the inbound scenarios: `kidC2` resolves to the
public half of key pair 11. -/
def resolveTest : String → Option Nat :=
  fun kid => if kid = kidC2 then some 11 else none

/-- The signing string a sender places under the declared list
`(request-target) host date x-missing` when the request carries no
`x-missing` header: the rebuild skips the absent name. -/
def signingStringC2 : String :=
  "(request-target): post /inbox\nhost: remote.test\ndate: " ++
    formatHTTPDate 0

/-- A `Signature` header declaring `x-missing` among its signed headers
while the signature bytes cover only the three present ones. -/
def sigHeaderC2 : String :=
  "keyId=\"" ++ kidC2 ++ "\"," ++
  "algorithm=\"rsa-sha256\"," ++
  "headers=\"(request-target) host date x-missing\"," ++
  "signature=\"" ++ rsaSignB64 11 signingStringC2 ++ "\""

/-- The inbound request of the C2 scenario: no `x-missing` header
anywhere, yet `x-missing` is declared as signed. -/
def hdrsC2 : Headers :=
  [("host", "remote.test"), ("date", formatHTTPDate 0),
   ("signature", sigHeaderC2)]

/-- C2 counterexample.  A declared header (`x-missing`) is absent from
the actual request headers, and `verify_request` returns `true`, not
`false`: the inline rebuild skips absent declared names instead of
rejecting. -/
theorem c2_absent_declared_header_accepted :
    ("x-missing" ∈
        splitWhitespace (dictGetD (parseSignatureHeader sigHeaderC2)
          "headers" "")) ∧
    dictContains hdrsC2 "x-missing" = false ∧
    verifyRequest resolveTest hdrsC2 "POST" "/inbox" none = true := by
  refine ⟨by decide, by decide, by decide⟩

/-- C2 amended.  The signing string is rebuilt from the declared header
list (not a fixed list), but a declared header absent from the actual
request is silently skipped — it contributes no line — rather than
causing rejection: the rebuild over any declared list equals the
rebuild over that list with the absent names filtered out. -/
theorem c2_rebuild_uses_declared_list_skipping_absent
    (method path : String) (headers : Headers)
    (signedHeaders : List String) :
    rebuildSigningString method path headers signedHeaders =
      rebuildSigningString method path headers
        (signedHeaders.filter
          (fun h => h = "(request-target)" || dictContains headers h)) := by
  unfold rebuildSigningString
  congr 1
  induction signedHeaders with
  | nil => rfl
  | cons h t ih =>
      by_cases hrt : h = "(request-target)"
      · simp [List.filter_cons, List.filterMap_cons, hrt, ih]
      · cases hg : dictGet? headers h with
        | some v =>
            simp [List.filter_cons, List.filterMap_cons, hrt, hg,
              dictContains, ih]
        | none =>
            simp [List.filter_cons, List.filterMap_cons, hrt, hg,
              dictContains, ih]

/-! ## Claim C3: clock-skew enforcement -/

/-- The signing string of a well-formed inbound request carrying
`date = T` for `T = 0`, declared list `(request-target) host date`. -/
def signingStringC3 : String :=
  "(request-target): post /inbox\nhost: remote.test\ndate: " ++
    formatHTTPDate 0

/-- A valid `Signature` header over `signingStringC3` under key pair
11. -/
def sigHeaderC3 : String :=
  "keyId=\"" ++ kidC2 ++ "\"," ++
  "algorithm=\"rsa-sha256\"," ++
  "headers=\"(request-target) host date\"," ++
  "signature=\"" ++ rsaSignB64 11 signingStringC3 ++ "\""

/-- The inbound request of the skew scenario, signed with
`date = T = 0`. -/
def hdrsC3 : Headers :=
  [("host", "remote.test"), ("date", formatHTTPDate 0),
   ("signature", sigHeaderC3)]

/-- C3.  Clock skew is NOT enforced: `verify_request` accepts the
request signed with `date = T` no matter when it runs — its embedding
takes no clock at all, because the source never reads one and never
calls `_verify_date`.  The dead helper `_verify_date` would indeed
reject at `T + 6` minutes and accept at `T + 4` minutes (shown at
`T = 0`, 360 s and 240 s), but `verify_request` returns `true`
regardless, where the claim requires `false` at `T + 6` minutes. -/
theorem c3_clock_skew_not_enforced :
    verifyRequest resolveTest hdrsC3 "POST" "/inbox" none = true ∧
    verifyDate none 360 (some (formatHTTPDate 0)) = false ∧
    verifyDate none 240 (some (formatHTTPDate 0)) = true := by
  refine ⟨by decide, by decide, by decide⟩

/-! ## Claim C10: the algorithm component of the Signature header -/

/-- A `Signature` header identical to `sigHeaderC3` except for the
algorithm value. -/
def sigHeaderWithAlg (alg : String) : String :=
  "keyId=\"" ++ kidC2 ++ "\"," ++
  "algorithm=\"" ++ alg ++ "\"," ++
  "headers=\"(request-target) host date\"," ++
  "signature=\"" ++ rsaSignB64 11 signingStringC3 ++ "\""

/-- The inbound request of the C10 scenario, parameterized by the
algorithm value only. -/
def hdrsWithAlg (alg : String) : Headers :=
  [("host", "remote.test"), ("date", formatHTTPDate 0),
   ("signature", sigHeaderWithAlg alg)]

/-- C10 counterexample.  Two inbound requests identical except for the
algorithm value do NOT always verify alike: with
`algorithm="rsa-sha256"` the request verifies, while the arbitrary text
`x,keyId=bogus` in the same position flips the result to `false` — the
comma makes the splitter read `keyId=bogus` as a fresh component that
overwrites the real key id. -/
theorem c10_algorithm_text_changes_result :
    verifyRequest resolveTest (hdrsWithAlg "rsa-sha256") "POST" "/inbox"
        none = true ∧
    verifyRequest resolveTest (hdrsWithAlg "x,keyId=bogus") "POST" "/inbox"
        none = false := by
  refine ⟨by decide, by decide⟩

/-- Replacing the value stored at `k` leaves lookups of `k2 ≠ k`
unchanged. -/
theorem dictGet?_replace_ne {α : Type} (k k2 : String) (v : α)
    (h : k2 ≠ k) :
    ∀ m : List (String × α),
      dictGet? (m.map (fun kv => if kv.1 = k then (k, v) else kv)) k2 =
        dictGet? m k2 := by
  intro m
  induction m with
  | nil => rfl
  | cons kv rest ih =>
      simp only [List.map_cons, dictGet?]
      by_cases hk : kv.1 = k
      · rw [if_pos hk,
          if_neg (show ¬((k, v) : String × α).1 = k2 from Ne.symm h),
          if_neg (show ¬kv.1 = k2 by rw [hk]; exact Ne.symm h)]
        exact ih
      · rw [if_neg hk]
        by_cases hk2 : kv.1 = k2
        · rw [if_pos hk2, if_pos hk2]
        · rw [if_neg hk2, if_neg hk2]
          exact ih

/-- Appending a binding for `k` leaves lookups of `k2 ≠ k` unchanged. -/
theorem dictGet?_append_single_ne {α : Type} (k k2 : String) (v : α)
    (h : k2 ≠ k) :
    ∀ m : List (String × α),
      dictGet? (m ++ [(k, v)]) k2 = dictGet? m k2 := by
  intro m
  induction m with
  | nil =>
      simp only [List.nil_append, dictGet?]
      rw [if_neg (show ¬((k, v) : String × α).1 = k2 from Ne.symm h)]
  | cons kv rest ih =>
      simp only [List.cons_append, dictGet?]
      by_cases hk2 : kv.1 = k2
      · rw [if_pos hk2, if_pos hk2]
      · rw [if_neg hk2, if_neg hk2]
        exact ih

theorem dictGet?_insert_ne {α : Type} (m : List (String × α))
    (k k2 : String) (v : α) (h : k2 ≠ k) :
    dictGet? (dictInsert m k v) k2 = dictGet? m k2 := by
  unfold dictInsert
  by_cases hc : dictContains m k = true
  · simp only [hc, if_true]
    exact dictGet?_replace_ne k k2 v h m
  · simp only [hc, if_false]
    exact dictGet?_append_single_ne k k2 v h m

/-- Deleting one key of a dict leaves lookups of any other key
unchanged. -/
theorem dictGet?_erase_ne {α : Type} (m : List (String × α))
    (k k2 : String) (h : k2 ≠ k) :
    dictGet? (dictErase m k) k2 = dictGet? m k2 := by
  induction m with
  | nil => rfl
  | cons kv rest ih =>
      unfold dictErase at ih ⊢
      simp only [List.filter_cons]
      by_cases hk : kv.1 = k
      · rw [show decide (kv.1 ≠ k) = false by simp [hk]]
        simp only [Bool.false_eq_true, if_false]
        rw [ih]
        simp only [dictGet?]
        rw [if_neg (show ¬kv.1 = k2 by rw [hk]; exact Ne.symm h)]
      · rw [show decide (kv.1 ≠ k) = true by simp [hk]]
        simp only [if_true]
        simp only [dictGet?]
        by_cases hk2 : kv.1 = k2
        · rw [if_pos hk2, if_pos hk2]
        · rw [if_neg hk2, if_neg hk2]
          exact ih

/-- C10 amended.  The verification result never depends on the PARSED
algorithm component: overwriting it with any value, or deleting it,
leaves `verifyFromParts` (the whole pipeline after header parsing)
unchanged — the code reads only `keyId`, `headers` and `signature`
and never compares the algorithm against `rsa-sha256`.  (At the raw
header level the claim fails, since an algorithm value containing a
comma re-parses as extra components: see the counterexample.) -/
theorem c10_parsed_algorithm_never_inspected
    (resolve : String → Option Nat) (method path : String)
    (headers : Headers) (body : Option Json) (sigParts : Headers)
    (alg : String) :
    verifyFromParts resolve method path headers body
        (dictInsert sigParts "algorithm" alg) =
      verifyFromParts resolve method path headers body sigParts ∧
    verifyFromParts resolve method path headers body
        (dictErase sigParts "algorithm") =
      verifyFromParts resolve method path headers body sigParts := by
  constructor
  · unfold verifyFromParts
    simp only [dictContains, dictGetD,
      dictGet?_insert_ne sigParts "algorithm" "keyId" alg (by decide),
      dictGet?_insert_ne sigParts "algorithm" "headers" alg (by decide),
      dictGet?_insert_ne sigParts "algorithm" "signature" alg (by decide)]
  · unfold verifyFromParts
    simp only [dictContains, dictGetD,
      dictGet?_erase_ne sigParts "algorithm" "keyId" (by decide),
      dictGet?_erase_ne sigParts "algorithm" "headers" (by decide),
      dictGet?_erase_ne sigParts "algorithm" "signature" (by decide)]

/-! ## Claim C9: signing a bodyless request -/

/-- Every member of `dictInsert m k v` carries the key `k` or was a
member of `m`. -/
theorem mem_dictInsert {α : Type} {kv2 : String × α}
    {m : List (String × α)} {k : String} {v : α}
    (hm : kv2 ∈ dictInsert m k v) : kv2.1 = k ∨ kv2 ∈ m := by
  unfold dictInsert at hm
  by_cases hc : dictContains m k = true
  · rw [if_pos hc] at hm
    rcases List.mem_map.mp hm with ⟨kv0, hkv0, heq⟩
    by_cases hk : kv0.1 = k
    · rw [if_pos hk] at heq
      left
      rw [← heq]
    · rw [if_neg hk] at heq
      right
      rw [← heq]
      exact hkv0
  · rw [if_neg hc] at hm
    rcases List.mem_append.mp hm with hin | hone
    · right; exact hin
    · left
      rcases List.mem_singleton.mp hone with rfl
      rfl

/-- A key absent from every lowered source entry is absent from the
lowered header map `_build_signing_string` constructs. -/
theorem lowered_map_missing (key : String) :
    ∀ (src : List (String × String)) (acc : Headers),
      dictGet? acc key = none →
      (∀ kv ∈ src, strToLower kv.1 ≠ key) →
      dictGet?
        (src.foldl (fun m kv => dictInsert m (strToLower kv.1) kv.2) acc)
        key = none := by
  intro src
  induction src with
  | nil => intro acc hacc _; exact hacc
  | cons kv rest ih =>
      intro acc hacc hall
      simp only [List.foldl_cons]
      refine ih _ ?_ (fun kv2 h2 => hall kv2 (List.mem_cons_of_mem _ h2))
      rw [dictGet?_insert_ne _ _ _ _
        (fun heq => hall kv (List.mem_cons_self _ _) heq.symm)]
      exact hacc

/-- Once the signing-string fold holds an error it stays an error. -/
theorem foldl_step_error (step : Except String (List String) → String →
      Except String (List String))
    (hstep : ∀ e h, step (.error e) h = .error e) :
    ∀ (L : List String) (e : String),
      L.foldl step (.error e) = .error e := by
  intro L
  induction L with
  | nil => intro e; rfl
  | cons h t ih => intro e; simp only [List.foldl_cons, hstep]; exact ih e

/-- C9.  `sign_request` cannot sign a bodyless request: with
`body = None` and no header lowercasing to `digest`, the fixed signed
list `(request-target) host date digest` makes
`_build_signing_string` raise on a missing header, and `sign_request`
rethrows it as a `SignatureError`. -/
theorem c9_bodyless_sign_raises (now : Int) (privKey : Nat)
    (keyId : String) (method path : String) (headers : Headers)
    (hnodigest : ∀ kv ∈ headers, strToLower kv.1 ≠ "digest") :
    ∃ e, signRequest now privKey keyId method path headers none =
      .error e := by
  have hreq : ∀ kv ∈ (if dictContains headers "date" then headers
      else dictInsert headers "date" (formatHTTPDate now)),
      strToLower kv.1 ≠ "digest" := by
    by_cases hd : dictContains headers "date" = true
    · rw [if_pos hd]; exact hnodigest
    · rw [if_neg hd]
      intro kv hkv
      rcases mem_dictInsert hkv with hk | hin
      · rw [hk]; decide
      · exact hnodigest kv hin
  set requestHeaders := (if dictContains headers "date" then headers
      else dictInsert headers "date" (formatHTTPDate now)) with hreqdef
  have hbuild : ∃ e, buildSigningString method path requestHeaders
      ["(request-target)", "host", "date", "digest"] = .error e := by
    unfold buildSigningString
    have hmiss : dictGet?
        (requestHeaders.foldl
          (fun m kv => dictInsert m (strToLower kv.1) kv.2) []) "digest" =
        none := lowered_map_missing "digest" requestHeaders [] rfl hreq
    simp only [List.foldl_cons, List.foldl_nil]
    cases hhost : dictGet?
        (requestHeaders.foldl
          (fun m kv => dictInsert m (strToLower kv.1) kv.2) [])
        (strToLower "host") with
    | none =>
        exact ⟨"Missing required header: host", by simp [hhost]⟩
    | some vh =>
        cases hdate : dictGet?
            (requestHeaders.foldl
              (fun m kv => dictInsert m (strToLower kv.1) kv.2) [])
            (strToLower "date") with
        | none =>
            exact ⟨"Missing required header: date", by simp [hhost, hdate]⟩
        | some vd =>
            exact ⟨"Missing required header: digest", by
              simp [hhost, hdate,
                show strToLower "digest" = "digest" by decide, hmiss]⟩
  rcases hbuild with ⟨e, he⟩
  refine ⟨"Request signing failed: " ++ e, ?_⟩
  unfold signRequest
  simp only [← hreqdef]
  rw [he]

/-- C9 witness: a concrete bodyless request with only a `host` header
cannot be signed. -/
theorem c9_bodyless_sign_raises_witness :
    (∀ kv ∈ ([("host", "remote.test")] : Headers),
      strToLower kv.1 ≠ "digest") ∧
    ∃ e, signRequest 0 7 kidC1 "POST" "/inbox" [("host", "remote.test")]
      none = .error e :=
  ⟨by decide,
   c9_bodyless_sign_raises 0 7 kidC1 "POST" "/inbox"
     [("host", "remote.test")] (by decide)⟩

/-! ## Claim C4: inline retry bounds in deliver_to_inbox -/

/-- The always-429 server of the C4 scenario. -/
def always429 : Nat → HttpResponse :=
  fun _ => { status := 429, retryAfter := none, bodyText := "" }

/-- C4 counterexample.  The claim says a retry happens only while
`retryCount < max_retries`; but with `max_retries = 3` a 429 response
triggers a retry at `retryCount = 3` (and at any other count), and the
recursion against an always-429 server is still running after 10
attempts — more than the claimed bound of at most `max_retries`
recursive attempts — with no permanent failure result in sight. -/
theorem c4_429_retry_ignores_bound :
    retryCondition 3 429 3 = true ∧
    deliverToInboxFuel 3 always429 "https://remote.test/inbox" 0 10 =
      none := by
  refine ⟨by decide, by decide⟩

/-- Against servers that only ever answer 5xx, the recursion finishes
within `maxRetries - retryCount + 1` attempts and returns the permanent
failure for the response at `retryCount = maxRetries`. -/
theorem deliver_5xx_bounded (maxRetries : Nat)
    (responses : Nat → HttpResponse) (inboxUrl : String)
    (h5xx : ∀ n, 500 ≤ (responses n).status) :
    ∀ (fuel retryCount : Nat), retryCount ≤ maxRetries →
      maxRetries - retryCount < fuel →
      deliverToInboxFuel maxRetries responses inboxUrl retryCount fuel =
        some { failed := [inboxUrl],
               statusCode := some (responses maxRetries).status,
               errorMessage := some (responses maxRetries).bodyText } := by
  intro fuel
  induction fuel with
  | zero => intro rc _ hlt; omega
  | succ f ih =>
      intro rc hle _
      have hst := h5xx rc
      have hnotok : ¬((responses rc).status = 200 ∨
          (responses rc).status = 201 ∨ (responses rc).status = 202) := by
        omega
      unfold deliverToInboxFuel
      rw [if_neg hnotok]
      by_cases hrc : rc < maxRetries
      · have hcond : retryCondition maxRetries (responses rc).status rc =
            true := by
          unfold retryCondition
          simp
          omega
        rw [if_pos hcond]
        exact ih (rc + 1) (by omega) (by omega)
      · have hrcEq : rc = maxRetries := by omega
        have hcond : retryCondition maxRetries (responses rc).status rc =
            false := by
          unfold retryCondition
          simp
          omega
        rw [if_neg (by rw [hcond]; exact Bool.false_ne_true)]
        rw [hrcEq]

/-- Against an always-429 server the recursion never returns, whatever
the fuel. -/
theorem deliver_429_unbounded (maxRetries : Nat) (inboxUrl : String)
    (responses : Nat → HttpResponse)
    (h429 : ∀ n, (responses n).status = 429) :
    ∀ (fuel retryCount : Nat),
      deliverToInboxFuel maxRetries responses inboxUrl retryCount fuel =
        none := by
  intro fuel
  induction fuel with
  | zero => intro rc; rfl
  | succ f ih =>
      intro rc
      have hst := h429 rc
      have hnotok : ¬((responses rc).status = 200 ∨
          (responses rc).status = 201 ∨ (responses rc).status = 202) := by
        omega
      have hcond : retryCondition maxRetries (responses rc).status rc =
          true := by
        unfold retryCondition
        simp only [Bool.or_eq_true, Nat.beq_eq_true_eq]
        left
        exact hst
      unfold deliverToInboxFuel
      rw [if_neg hnotok, if_pos hcond]
      exact ih (rc + 1)

/-- C4 amended.  Inline retries are bounded by `max_retries` only for
5xx responses: an always-5xx server yields a permanent failure after
the attempt at `retryCount = max_retries`.  A 429 response, however,
triggers a retry at every `retryCount` — the bound in the source guards
only the 5xx arm — so an always-429 server keeps the recursion alive
with no bound and no permanent failure result. -/
theorem c4_retry_bound_holds_for_5xx_only (maxRetries : Nat)
    (responses : Nat → HttpResponse) (inboxUrl : String) (fuel : Nat)
    (h5xx : ∀ n, 500 ≤ (responses n).status)
    (hfuel : maxRetries < fuel) :
    deliverToInboxFuel maxRetries responses inboxUrl 0 fuel =
      some { failed := [inboxUrl],
             statusCode := some (responses maxRetries).status,
             errorMessage := some (responses maxRetries).bodyText } ∧
    (∀ retryCount : Nat,
      retryCondition maxRetries 429 retryCount = true) ∧
    (∀ fuel2 : Nat,
      deliverToInboxFuel maxRetries always429 inboxUrl 0 fuel2 = none) :=
  ⟨deliver_5xx_bounded maxRetries responses inboxUrl h5xx fuel 0
     (Nat.zero_le _) (by omega),
   fun _ => by unfold retryCondition; simp,
   fun fuel2 =>
     deliver_429_unbounded maxRetries inboxUrl always429 (fun _ => rfl)
       fuel2 0⟩

/-- The always-503 server of the C4 witness. -/
def always503 : Nat → HttpResponse :=
  fun _ => { status := 503, retryAfter := none, bodyText := "oops" }

/-- C4 witness: the amended bound at `max_retries = 3` against an
always-503 server with fuel 10. -/
theorem c4_retry_bound_witness :
    (∀ n : Nat, 500 ≤ (always503 n).status) ∧
    (3 : Nat) < 10 ∧
    deliverToInboxFuel 3 always503 "https://remote.test/inbox" 0 10 =
      some { failed := ["https://remote.test/inbox"],
             statusCode := some 503, errorMessage := some "oops" } :=
  ⟨fun _ => (by decide : (500 : Nat) ≤ 503), by decide,
   (c4_retry_bound_holds_for_5xx_only 3 always503
     "https://remote.test/inbox" 10
     (fun _ => (by decide : (500 : Nat) ≤ 503)) (by decide)).1⟩

/-! ## Claim C5: queue backoff and terminal failure -/

/-- Looking up the key just written returns the written value. -/
theorem dictGet?_insert_self {α : Type} (k : String) (v : α) :
    ∀ m : List (String × α), dictGet? (dictInsert m k v) k = some v := by
  intro m
  unfold dictInsert
  by_cases hc : dictContains m k = true
  · rw [if_pos hc]
    induction m with
    | nil => simp [dictContains, dictGet?] at hc
    | cons kv rest ih =>
        by_cases hk : kv.1 = k
        · simp [dictGet?, hk]
        · have hc2 : dictContains rest k = true := by
            unfold dictContains dictGet? at hc
            rw [if_neg hk] at hc
            exact hc
          simp only [List.map_cons, if_neg hk, dictGet?]
          exact ih hc2
  · rw [if_neg hc]
    induction m with
    | nil => simp [dictGet?]
    | cons kv rest ih =>
        have hk : ¬kv.1 = k := by
          intro hkk
          apply hc
          unfold dictContains dictGet?
          rw [if_pos hkk]
          rfl
        have hc2 : ¬dictContains rest k = true := by
          intro hrest
          apply hc
          unfold dictContains dictGet?
          rw [if_neg hk]
          exact hrest
        simp only [List.cons_append, dictGet?]
        rw [if_neg hk]
        exact ih hc2

/-- Looking up the key just erased returns nothing. -/
theorem dictGet?_erase_self {α : Type} (k : String) :
    ∀ m : List (String × α), dictGet? (dictErase m k) k = none := by
  intro m
  induction m with
  | nil => rfl
  | cons kv rest ih =>
      unfold dictErase at ih ⊢
      simp only [List.filter_cons]
      by_cases hk : kv.1 = k
      · rw [show decide (kv.1 ≠ k) = false by simp [hk]]
        simp only [Bool.false_eq_true, if_false]
        exact ih
      · rw [show decide (kv.1 ≠ k) = true by simp [hk]]
        simp only [if_true, dictGet?]
        rw [if_neg hk]
        exact ih

/-- C5.  When a processed job's delivery returns a result with no
successes: with attempts remaining below `max_attempts` the record
becomes RETRYING, rescheduled in the index at
`now + 2^attempts minutes` (`attempts` being the just-incremented
count, so consecutive RETRYING transitions back off 2, 4, 8, ...
minutes); once the incremented count reaches `max_attempts` the record
becomes terminal FAILED, is removed from the schedule index, and the
record itself is kept (still retrievable, with its final state). -/
theorem c5_queue_backoff_and_terminal_failure (maxAttempts : Nat)
    (now : Int) (qs : QueueState) (deliveryId : String)
    (d : QueuedDeliveryM) (r : DeliveryResultM)
    (hfound : dictGet? qs.records deliveryId = some d)
    (hfail : r.success = []) :
    (d.attempts + 1 < maxAttempts →
      dictGet? (processDelivery maxAttempts now (.ok r) qs
          deliveryId).records deliveryId =
        some { d with
          status := .retrying,
          attempts := d.attempts + 1,
          updatedAt := now,
          error := r.errorMessage,
          nextAttempt := now + 60 * 2 ^ (d.attempts + 1) } ∧
      dictGet? (processDelivery maxAttempts now (.ok r) qs
          deliveryId).schedule deliveryId =
        some (now + 60 * 2 ^ (d.attempts + 1))) ∧
    (maxAttempts ≤ d.attempts + 1 →
      dictGet? (processDelivery maxAttempts now (.ok r) qs
          deliveryId).records deliveryId =
        some { d with
          status := .failed,
          attempts := d.attempts + 1,
          updatedAt := now,
          error := r.errorMessage } ∧
      dictGet? (processDelivery maxAttempts now (.ok r) qs
          deliveryId).schedule deliveryId = none) := by
  unfold processDelivery
  rw [hfound]
  simp only [hfail, ne_eq, not_true_eq_false, if_false]
  constructor
  · intro hlt
    rw [if_pos hlt]
    simp only []
    rw [if_neg (by simp : ¬(DeliveryStatus.retrying = .completed ∨
      DeliveryStatus.retrying = .failed))]
    exact ⟨dictGet?_insert_self _ _ _, dictGet?_insert_self _ _ _⟩
  · intro hge
    rw [if_neg (by omega : ¬d.attempts + 1 < maxAttempts)]
    simp only []
    rw [if_pos (Or.inr trivial)]
    exact ⟨dictGet?_insert_self _ _ _, dictGet?_erase_self _ _⟩

/-- The queued job of the C5 witness, not yet attempted. -/
def dC5 : QueuedDeliveryM :=
  { id := "job-1", attempts := 0, status := .pending, nextAttempt := 0,
    updatedAt := 0 }

/-- Queue state holding the C5 witness job, due at score 0. -/
def qsC5 : QueueState :=
  { records := [("job-1", dC5)], schedule := [("job-1", 0)] }

/-- The failed delivery result of the C5 witness. -/
def rC5 : DeliveryResultM :=
  { failed := ["https://remote.test/inbox"], errorMessage := some "boom" }

/-- C5 witness: processing the concrete job at `now = 100` with
`max_attempts = 5` and a failed result reschedules it RETRYING at
`100 + 2^1` minutes `= 220` seconds. -/
theorem c5_queue_backoff_witness :
    dictGet? qsC5.records "job-1" = some dC5 ∧
    rC5.success = [] ∧
    dC5.attempts + 1 < 5 ∧
    (dictGet? (processDelivery 5 100 (.ok rC5) qsC5 "job-1").records
        "job-1" =
      some { dC5 with
        status := .retrying,
        attempts := dC5.attempts + 1,
        updatedAt := 100,
        error := rC5.errorMessage,
        nextAttempt := 100 + 60 * 2 ^ (dC5.attempts + 1) } ∧
    dictGet? (processDelivery 5 100 (.ok rC5) qsC5 "job-1").schedule
        "job-1" =
      some (100 + 60 * 2 ^ (dC5.attempts + 1))) :=
  ⟨by decide, by decide, by decide,
   (c5_queue_backoff_and_terminal_failure 5 100 qsC5 "job-1" dC5 rC5
     (by decide) (by decide)).1 (by decide)⟩

/-! ## Claim C6: exact budget of the rate-limit window -/

/-- A key a dict does not contain heads no entry. -/
theorem dictContains_false_forall {α : Type} (m : List (String × α))
    (k : String) (h : dictContains m k = false) :
    ∀ kv ∈ m, kv.1 ≠ k := by
  induction m with
  | nil => intro kv hkv; cases hkv
  | cons kv0 rest ih =>
      intro kv hkv
      have h2 : (if kv0.1 = k then some kv0.2
          else dictGet? rest k).isSome = false := h
      by_cases hk : kv0.1 = k
      · rw [if_pos hk] at h2
        simp at h2
      · rw [if_neg hk] at h2
        rcases List.mem_cons.mp hkv with rfl | hkv2
        · exact hk
        · exact ih h2 kv hkv2

/-- Two successive writes to the same key collapse to the second. -/
theorem dictInsert_insert {α : Type} (m : List (String × α)) (k : String)
    (v v2 : α) :
    dictInsert (dictInsert m k v) k v2 = dictInsert m k v2 := by
  have hget := dictGet?_insert_self k v m
  set m2 := dictInsert m k v with hm2
  have hc : dictContains m2 k = true := by
    unfold dictContains
    rw [hget]
    rfl
  by_cases hm : dictContains m k = true
  · have h2 : m2 = m.map (fun kv => if kv.1 = k then (k, v) else kv) := by
      rw [hm2]
      unfold dictInsert
      rw [if_pos hm]
    unfold dictInsert
    rw [if_pos hc, if_pos hm, h2, List.map_map]
    congr 1
    funext kv
    by_cases hk : kv.1 = k
    · simp [hk]
    · simp [hk]
  · have h2 : m2 = m ++ [(k, v)] := by
      rw [hm2]
      unfold dictInsert
      rw [if_neg hm]
    have hall := dictContains_false_forall m k (Bool.eq_false_iff.mpr hm)
    unfold dictInsert
    rw [if_pos hc, if_neg hm, h2, List.map_append]
    have hmap : m.map (fun kv => if kv.1 = k then (k, v2) else kv) = m := by
      conv_rhs => rw [← List.map_id m]
      refine List.map_congr_left (fun kv hkv => ?_)
      rw [if_neg (hall kv hkv)]
      rfl
    rw [hmap]
    simp

/-- Shorthand for a cached `RateLimitState` with its expiry instant. -/
def rlEntry (r rst L exp : Int) : CacheEntry :=
  { value := { remaining := r, reset := rst, limit := L },
    expiresAt := exp }

/-- One allowed `check_rate_limit` call: warm cache entry, window still
open, budget positive ⇒ allow and decrement, refreshing the entry's
TTL. -/
theorem check_step_allow (st : RLState) (d : String)
    (t0 rst L r : Int) (c0 : List (String × CacheEntry))
    (hcache : st.cache = dictInsert c0 (rlKey d)
      (rlEntry r rst L (t0 + st.ttl)))
    (httl : 0 ≤ st.ttl) (hrst : t0 < rst) (hr : 0 < r) :
    checkRateLimit t0 st d =
      (true, { st with
        cache := dictInsert c0 (rlKey d)
          (rlEntry (r - 1) rst L (t0 + st.ttl)) }) := by
  unfold checkRateLimit getRLState cacheGet
  rw [hcache, dictGet?_insert_self]
  simp only [rlEntry, cacheSet,
    if_neg (show ¬t0 > t0 + st.ttl by omega),
    if_neg (show ¬t0 ≥ rst by omega),
    if_neg (show ¬r ≤ 0 by omega)]
  rw [hcache, dictInsert_insert]

/-- One denied `check_rate_limit` call: warm cache entry, window still
open, budget exhausted ⇒ deny, state untouched. -/
theorem check_step_deny (st : RLState) (d : String)
    (t0 rst L r : Int) (c0 : List (String × CacheEntry))
    (hcache : st.cache = dictInsert c0 (rlKey d)
      (rlEntry r rst L (t0 + st.ttl)))
    (httl : 0 ≤ st.ttl) (hrst : t0 < rst) (hr : r ≤ 0) :
    checkRateLimit t0 st d = (false, st) := by
  unfold checkRateLimit getRLState cacheGet
  rw [hcache, dictGet?_insert_self]
  simp only [rlEntry,
    if_neg (show ¬t0 > t0 + st.ttl by omega),
    if_neg (show ¬t0 ≥ rst by omega), if_pos hr]

/-- One resetting `check_rate_limit` call: warm cache entry whose
window has elapsed ⇒ allow, budget restored to the full `requests`
(undecremented) with a fresh window. -/
theorem check_step_reset (st : RLState) (d : String)
    (t exp rst L r : Int) (c0 : List (String × CacheEntry))
    (hcache : st.cache = dictInsert c0 (rlKey d) (rlEntry r rst L exp))
    (hwarm : t ≤ exp) (hrst : rst ≤ t) :
    checkRateLimit t st d =
      (true, { st with
        cache := dictInsert c0 (rlKey d)
          (rlEntry st.requests (t + st.period) st.requests
            (t + st.ttl)) }) := by
  unfold checkRateLimit getRLState cacheGet
  rw [hcache, dictGet?_insert_self]
  simp only [rlEntry, cacheSet, freshRLState,
    if_neg (show ¬t > exp by omega),
    if_pos (show t ≥ rst by omega)]
  rw [hcache, dictInsert_insert]

/-- The first `check_rate_limit` call for a fresh domain: create the
full-budget state, then decrement it. -/
theorem check_step_fresh (st : RLState) (d : String) (t0 : Int)
    (hnone : dictGet? st.cache (rlKey d) = none)
    (hP : 0 < st.period) (hN : 0 < st.requests) :
    checkRateLimit t0 st d =
      (true, { st with
        cache := dictInsert st.cache (rlKey d)
          (rlEntry (st.requests - 1) (t0 + st.period) st.requests
            (t0 + st.ttl)) }) := by
  unfold checkRateLimit getRLState cacheGet
  rw [hnone]
  simp only [rlEntry, cacheSet, freshRLState,
    if_neg (show ¬t0 ≥ t0 + st.period by omega),
    if_neg (show ¬st.requests ≤ 0 by omega)]
  rw [dictInsert_insert]

/-- Run `check_rate_limit` once per listed instant, collecting the
results (the claim's sequence of calls). -/
def runChecks (domain : String) : RLState → List Int → List Bool × RLState
  | st, [] => ([], st)
  | st, t :: ts =>
      ((checkRateLimit t st domain).1 ::
        (runChecks domain (checkRateLimit t st domain).2 ts).1,
       (runChecks domain (checkRateLimit t st domain).2 ts).2)

/-- Splitting a call sequence. -/
theorem runChecks_append (domain : String) :
    ∀ (xs ys : List Int) (st : RLState),
      runChecks domain st (xs ++ ys) =
        ((runChecks domain st xs).1 ++
          (runChecks domain (runChecks domain st xs).2 ys).1,
         (runChecks domain (runChecks domain st xs).2 ys).2) := by
  intro xs
  induction xs with
  | nil => intro ys st; rfl
  | cons x xt ih =>
      intro ys st
      simp only [List.cons_append, runChecks, ih, List.nil_append,
        List.append_eq]

/-- `k` consecutive allowed calls at `t0` drain the budget from `r` to
`r - k`. -/
theorem runChecks_drain (d : String) (t0 rst L : Int)
    (c0 : List (String × CacheEntry)) :
    ∀ (k : Nat) (r : Int) (st : RLState),
      st.cache = dictInsert c0 (rlKey d)
        (rlEntry r rst L (t0 + st.ttl)) →
      0 ≤ st.ttl → t0 < rst → (k : Int) ≤ r →
      runChecks d st (List.replicate k t0) =
        (List.replicate k true,
         { st with
           cache := dictInsert c0 (rlKey d)
             (rlEntry (r - k) rst L (t0 + st.ttl)) }) := by
  intro k
  induction k with
  | zero =>
      intro r st hcache _ _ _
      simp only [List.replicate, runChecks, Nat.cast_zero, sub_zero]
      rw [← hcache]
  | succ k ih =>
      intro r st hcache httl hrst hk
      rw [List.replicate_succ]
      simp only [runChecks]
      rw [check_step_allow st d t0 rst L r c0 hcache httl hrst
        (by push_cast at hk; omega)]
      dsimp only []
      rw [ih (r - 1)
        { st with cache := dictInsert c0 (rlKey d) (rlEntry (r - 1) rst L (t0 + st.ttl)) }
        rfl httl hrst (by push_cast at hk ⊢; omega)]
      refine Prod.ext ?_ ?_
      · rfl
      · simp only []
        congr 2
        push_cast
        ring_nf

/-- C6.  For a fresh domain on a limiter with `limit = N ≥ 1`,
`period = P > 0`, cache TTL `≥ 0`: the first `N` calls at `t0` all
return `true`, the `(N+1)`-th returns `false`, and a further call at
any `t` with `t0 + P ≤ t ≤ t0 + ttl` returns `true` with the stored
counter restored to the full `N` (new window `t + P`). -/
theorem c6_rate_limit_budget (n : Nat) (P ttl0 t0 t : Int) (d : String)
    (hn : 1 ≤ n) (hP : 0 < P) (httl : 0 ≤ ttl0)
    (ht1 : t0 + P ≤ t) (ht2 : t ≤ t0 + ttl0) :
    runChecks d (mkRateLimiter (n : Int) P ttl0)
        (List.replicate (n + 1) t0 ++ [t]) =
      (List.replicate n true ++ [false, true],
       { requests := (n : Int), period := P, ttl := ttl0,
         cache := [(rlKey d,
           rlEntry (n : Int) (t + P) (n : Int) (t + ttl0))] }) := by
  obtain ⟨n1, rfl⟩ : ∃ n1, n = n1 + 1 := ⟨n - 1, by omega⟩
  rw [runChecks_append]
  rw [show n1 + 1 + 1 = (n1 + 1) + 1 from rfl, List.replicate_succ,
    List.replicate_succ' n1 t0]
  simp only [runChecks]
  rw [check_step_fresh (mkRateLimiter ((n1 + 1 : Nat) : Int) P ttl0) d t0
    rfl hP
    (show (0 : Int) < (mkRateLimiter ((n1 + 1 : Nat) : Int) P ttl0).requests
      from by show (0 : Int) < ((n1 + 1 : Nat) : Int); push_cast; omega)]
  dsimp only [mkRateLimiter]
  rw [runChecks_append]
  rw [runChecks_drain d t0 (t0 + P) ((n1 + 1 : Nat) : Int) [] n1
    (((n1 + 1 : Nat) : Int) - 1)
    { requests := ((n1 + 1 : Nat) : Int), period := P, ttl := ttl0,
      cache := dictInsert [] (rlKey d) (rlEntry (((n1 + 1 : Nat) : Int) - 1) (t0 + P) ((n1 + 1 : Nat) : Int) (t0 + ttl0)) }
    rfl httl (by omega) (by push_cast; omega)]
  dsimp only []
  simp only [runChecks]
  rw [check_step_deny
    { requests := ((n1 + 1 : Nat) : Int), period := P, ttl := ttl0,
      cache := dictInsert [] (rlKey d) (rlEntry (((n1 + 1 : Nat) : Int) - 1 - (n1 : Int)) (t0 + P) ((n1 + 1 : Nat) : Int) (t0 + ttl0)) }
    d t0 (t0 + P) ((n1 + 1 : Nat) : Int)
    (((n1 + 1 : Nat) : Int) - 1 - (n1 : Int)) [] rfl httl (by omega)
    (by push_cast; omega)]
  dsimp only []
  rw [check_step_reset
    { requests := ((n1 + 1 : Nat) : Int), period := P, ttl := ttl0,
      cache := dictInsert [] (rlKey d) (rlEntry (((n1 + 1 : Nat) : Int) - 1 - (n1 : Int)) (t0 + P) ((n1 + 1 : Nat) : Int) (t0 + ttl0)) }
    d t (t0 + ttl0) (t0 + P) ((n1 + 1 : Nat) : Int)
    (((n1 + 1 : Nat) : Int) - 1 - (n1 : Int)) [] rfl (by omega)
    (by omega)]
  dsimp only []
  refine Prod.ext ?_ ?_
  · show true :: (List.replicate n1 true ++ [false]) ++ [true] =
      List.replicate (n1 + 1) true ++ [false, true]
    rw [List.replicate_succ]
    simp
  · rfl

/-- C6 witness: `limit = 3`, `period = 60`, TTL 3600, calls at `t0 = 0`
and the reset call at `t = 60`. -/
theorem c6_rate_limit_budget_witness :
    (1 ≤ 3 ∧ (0 : Int) < 60 ∧ (0 : Int) ≤ 3600 ∧
      (0 : Int) + 60 ≤ 60 ∧ (60 : Int) ≤ 0 + 3600) ∧
    runChecks "remote.test" (mkRateLimiter ((3 : Nat) : Int) 60 3600)
        (List.replicate (3 + 1) 0 ++ [60]) =
      (List.replicate 3 true ++ [false, true],
       { requests := ((3 : Nat) : Int), period := 60, ttl := 3600,
         cache := [(rlKey "remote.test",
           rlEntry ((3 : Nat) : Int) (60 + 60) ((3 : Nat) : Int)
             (60 + 3600))] }) :=
  ⟨⟨by decide, by decide, by decide, by decide, by decide⟩,
   c6_rate_limit_budget 3 60 3600 0 60 "remote.test" (by decide)
     (by decide) (by decide) (by decide) (by decide)⟩

/-! ## Claim C7: can `remaining` go negative? -/

/-- Response headers reporting a negative remaining budget. -/
def negHdrs : Headers :=
  [("X-RateLimit-Remaining", "-1"), ("X-RateLimit-Reset", "100"),
   ("X-RateLimit-Limit", "100")]

/-- C7 counterexample.  One `update_rate_limit` call with a remote
`X-RateLimit-Remaining: -1` drives the stored `remaining` to `-1 < 0`:
the value is installed verbatim, unvalidated. -/
theorem c7_update_goes_negative :
    (dictGet? (runRLOps (mkRateLimiter 100 60 3600)
        [RLOp.update "remote.test" 0 negHdrs]).cache
      (rlKey "remote.test")).map (fun e => e.value.remaining) =
        some (-1) ∧
    (-1 : Int) < 0 := by
  refine ⟨by decide, by decide⟩

/-- The invariant of the amended claim: a nonnegative configured budget
and no cached state with negative `remaining`. -/
def rlInvariant (st : RLState) : Prop :=
  0 ≤ st.requests ∧ ∀ kv ∈ st.cache, 0 ≤ kv.2.value.remaining

/-- Every member of `dictInsert m k v` is the new binding or an old
member. -/
theorem mem_dictInsert_eq {α : Type} {kv2 : String × α}
    {m : List (String × α)} {k : String} {v : α}
    (hm : kv2 ∈ dictInsert m k v) : kv2 = (k, v) ∨ kv2 ∈ m := by
  unfold dictInsert at hm
  by_cases hc : dictContains m k = true
  · rw [if_pos hc] at hm
    rcases List.mem_map.mp hm with ⟨kv0, hkv0, heq⟩
    by_cases hk : kv0.1 = k
    · rw [if_pos hk] at heq
      left
      rw [← heq]
    · rw [if_neg hk] at heq
      right
      rw [← heq]
      exact hkv0
  · rw [if_neg hc] at hm
    rcases List.mem_append.mp hm with hin | hone
    · right; exact hin
    · left
      exact List.mem_singleton.mp hone

/-- Writing a nonnegative state preserves the invariant. -/
theorem rlInvariant_cacheSet (now : Int) (st : RLState) (key : String)
    (v : RateLimitStateM) (hinv : rlInvariant st)
    (hv : 0 ≤ v.remaining) : rlInvariant (cacheSet now st key v) := by
  refine ⟨hinv.1, fun kv hkv => ?_⟩
  rcases mem_dictInsert_eq hkv with rfl | hold
  · exact hv
  · exact hinv.2 kv hold

/-- `MemoryCache.get` (which may evict an expired entry) preserves the
invariant and the configuration. -/
theorem rlInvariant_cacheGet (now : Int) (st : RLState) (key : String)
    (hinv : rlInvariant st) :
    rlInvariant (cacheGet now st key).2 ∧
      (cacheGet now st key).2.requests = st.requests := by
  unfold cacheGet
  cases hg : dictGet? st.cache key with
  | none => exact ⟨hinv, rfl⟩
  | some e =>
      dsimp only []
      by_cases hexp : now > e.expiresAt
      · rw [if_pos hexp]
        refine ⟨⟨hinv.1, fun kv hkv => ?_⟩, rfl⟩
        exact hinv.2 kv (List.mem_of_mem_filter hkv)
      · rw [if_neg hexp]
        exact ⟨hinv, rfl⟩

/-- `_get_state` preserves the invariant and the configuration. -/
theorem rlInvariant_getRLState (now : Int) (st : RLState) (d : String)
    (hinv : rlInvariant st) :
    rlInvariant (getRLState now st d).2 ∧
      (getRLState now st d).2.requests = st.requests := by
  have hcg := rlInvariant_cacheGet now st (rlKey d) hinv
  unfold getRLState
  rcases hg : cacheGet now st (rlKey d) with ⟨o, st1⟩
  rw [hg] at hcg
  dsimp only [] at hcg
  cases o with
  | some s => exact hcg
  | none =>
      dsimp only []
      refine ⟨rlInvariant_cacheSet now st1 (rlKey d) _ hcg.1 ?_, hcg.2⟩
      unfold freshRLState
      dsimp only []
      rw [hcg.2]
      exact hinv.1


/-- `check_rate_limit` preserves the invariant: the reset branch
restores the full nonnegative budget, the deny branch writes nothing,
and the decrement branch is guarded by `remaining > 0`. -/
theorem rlInvariant_check (t : Int) (st : RLState) (d : String)
    (hinv : rlInvariant st) :
    rlInvariant (checkRateLimit t st d).2 ∧
      (checkRateLimit t st d).2.requests = st.requests := by
  have hgs := rlInvariant_getRLState t st d hinv
  unfold checkRateLimit
  rcases hg : getRLState t st d with ⟨state, st1⟩
  rw [hg] at hgs
  dsimp only [] at hgs
  dsimp only []
  by_cases hreset : t ≥ state.reset
  · rw [if_pos hreset]
    refine ⟨rlInvariant_cacheSet t st1 (rlKey d) _ hgs.1 ?_, hgs.2⟩
    unfold freshRLState
    dsimp only []
    rw [hgs.2]
    exact hinv.1
  · rw [if_neg hreset]
    by_cases hz : state.remaining ≤ 0
    · rw [if_pos hz]
      exact hgs
    · rw [if_neg hz]
      refine ⟨rlInvariant_cacheSet t st1 (rlKey d) _ hgs.1 ?_, hgs.2⟩
      dsimp only []
      omega

/-- `get_wait_time` touches the cache only through `_get_state`. -/
theorem rlInvariant_wait (t : Int) (st : RLState) (d : String)
    (hinv : rlInvariant st) :
    rlInvariant (getWaitTime t st d).2 ∧
      (getWaitTime t st d).2.requests = st.requests := by
  have hgs := rlInvariant_getRLState t st d hinv
  unfold getWaitTime
  rcases hg : getRLState t st d with ⟨state, st1⟩
  rw [hg] at hgs
  dsimp only [] at hgs
  dsimp only []
  by_cases hr : state.remaining > 0
  · rw [if_pos hr]
    exact hgs
  · rw [if_neg hr]
    exact hgs

/-- Is one limiter operation safe for the invariant?  `check` and
`wait` always are; an `update` is safe when it does not install a
negative parsed `X-RateLimit-Remaining`. -/
def safeOp : RLOp → Bool
  | .check _ _ => true
  | .wait _ _ => true
  | .update _ _ hs =>
      match dictGet? hs "X-RateLimit-Remaining",
            dictGet? hs "X-RateLimit-Reset",
            dictGet? hs "X-RateLimit-Limit" with
      | some r, some re, some l =>
          match pyInt? r, pyInt? re, pyInt? l with
          | some ri, some _, some _ => decide (0 ≤ ri)
          | _, _, _ => true
      | _, _, _ => true

/-- A safe `update_rate_limit` preserves the invariant. -/
theorem rlInvariant_update (t : Int) (st : RLState) (d : String)
    (hs : Headers) (hinv : rlInvariant st)
    (hsafe : safeOp (.update d t hs) = true) :
    rlInvariant (match updateRateLimit t st d hs with
      | .ok st1 => st1
      | .error _ => st) := by
  unfold updateRateLimit
  unfold safeOp at hsafe
  dsimp only [] at hsafe
  cases h1 : dictGet? hs "X-RateLimit-Remaining" with
  | none => dsimp only []; exact hinv
  | some r =>
      cases h2 : dictGet? hs "X-RateLimit-Reset" with
      | none => dsimp only []; exact hinv
      | some re =>
          cases h3 : dictGet? hs "X-RateLimit-Limit" with
          | none => dsimp only []; exact hinv
          | some l =>
              rw [h1, h2, h3] at hsafe
              dsimp only [] at hsafe ⊢
              cases hp1 : pyInt? r with
              | none => dsimp only []; exact hinv
              | some ri =>
                  cases hp2 : pyInt? re with
                  | none => dsimp only []; exact hinv
                  | some rei =>
                      cases hp3 : pyInt? l with
                      | none => dsimp only []; exact hinv
                      | some li =>
                          rw [hp1, hp2, hp3] at hsafe
                          dsimp only [] at hsafe ⊢
                          refine rlInvariant_cacheSet t st (rlKey d) _
                            hinv ?_
                          exact of_decide_eq_true hsafe

/-- C7 amended.  Under `check_rate_limit` and `get_wait_time` alone the
stored `remaining` never goes negative, and `update_rate_limit`
preserves nonnegativity exactly when the remote headers do not carry a
negative remaining value: any sequence of safe operations keeps the
invariant.  (An unsafe `update` breaks it: see the counterexample.) -/
theorem c7_remaining_nonnegative_for_safe_ops :
    ∀ (ops : List RLOp) (st : RLState), rlInvariant st →
      (∀ op ∈ ops, safeOp op = true) → rlInvariant (runRLOps st ops) := by
  intro ops
  induction ops with
  | nil => intro st hinv _; exact hinv
  | cons op rest ih =>
      intro st hinv hsafe
      cases op with
      | check d t =>
          exact ih _ ((rlInvariant_check t st d hinv).1)
            (fun o ho => hsafe o (List.mem_cons_of_mem _ ho))
      | wait d t =>
          exact ih _ ((rlInvariant_wait t st d hinv).1)
            (fun o ho => hsafe o (List.mem_cons_of_mem _ ho))
      | update d t hs =>
          have hop := hsafe _ (List.mem_cons_self _ _)
          have hupd := rlInvariant_update t st d hs hinv hop
          unfold runRLOps
          cases hu : updateRateLimit t st d hs with
          | ok st1 =>
              rw [hu] at hupd
              exact ih _ hupd
                (fun o ho => hsafe o (List.mem_cons_of_mem _ ho))
          | error e =>
              rw [hu] at hupd
              exact ih _ hupd
                (fun o ho => hsafe o (List.mem_cons_of_mem _ ho))

/-- The safe operation sequence of the C7 witness. -/
def opsC7 : List RLOp :=
  [RLOp.check "remote.test" 0,
   RLOp.update "remote.test" 1
     [("X-RateLimit-Remaining", "50"), ("X-RateLimit-Reset", "200"),
      ("X-RateLimit-Limit", "100")],
   RLOp.check "remote.test" 2,
   RLOp.wait "remote.test" 3]

/-- C7 witness: a concrete safe sequence keeps `remaining`
nonnegative. -/
theorem c7_remaining_nonnegative_witness :
    rlInvariant (mkRateLimiter 100 60 3600) ∧
    (∀ op ∈ opsC7, safeOp op = true) ∧
    rlInvariant (runRLOps (mkRateLimiter 100 60 3600) opsC7) :=
  ⟨⟨by decide, fun kv hkv => absurd hkv (List.not_mem_nil kv)⟩,
   by decide,
   c7_remaining_nonnegative_for_safe_ops opsC7 (mkRateLimiter 100 60 3600)
     ⟨by decide, fun kv hkv => absurd hkv (List.not_mem_nil kv)⟩
     (by decide)⟩

/-! ## Claim C8: the active key after rotation -/

/-- A contained key has a member entry. -/
theorem dictContains_true_exists {α : Type} (m : List (String × α))
    (k : String) (h : dictContains m k = true) : ∃ kv ∈ m, kv.1 = k := by
  induction m with
  | nil => simp [dictContains, dictGet?] at h
  | cons kv0 rest ih =>
      by_cases hk : kv0.1 = k
      · exact ⟨kv0, List.mem_cons_self _ _, hk⟩
      · have h2 : (if kv0.1 = k then some kv0.2
            else dictGet? rest k).isSome = true := h
        rw [if_neg hk] at h2
        rcases ih h2 with ⟨kv, hkv, hkvk⟩
        exact ⟨kv, List.mem_cons_of_mem _ hkv, hkvk⟩

/-- The binding just written is a member. -/
theorem mem_dictInsert_self {α : Type} (m : List (String × α))
    (k : String) (v : α) : (k, v) ∈ dictInsert m k v := by
  unfold dictInsert
  by_cases hc : dictContains m k = true
  · rw [if_pos hc]
    rcases dictContains_true_exists m k hc with ⟨kv, hkv, hkvk⟩
    refine List.mem_map.mpr ⟨kv, hkv, ?_⟩
    rw [if_pos hkvk]
  · rw [if_neg hc]
    exact List.mem_append.mpr (Or.inr (List.mem_singleton.mpr rfl))

/-- Python''s `max(..., key=created_at)` (first maximal kept): if one
value is strictly newest, the fold finds it. -/
theorem foldl_newest (now : Int) (m : KeyPairM)
    (hm : m.createdAt = now) :
    ∀ (L : List (String × KeyPairM)) (acc : String × KeyPairM),
      (∀ kv ∈ L, kv.2.createdAt < now ∨ kv.2 = m) →
      (acc.2 = m ∨ (acc.2.createdAt < now ∧ ∃ kv ∈ L, kv.2 = m)) →
      (L.foldl
        (fun best p => if best.2.createdAt < p.2.createdAt then p else best)
        acc).2 = m := by
  intro L
  induction L with
  | nil =>
      intro acc _ hacc
      rcases hacc with hacc | ⟨_, ⟨kv, hkv, _⟩⟩
      · exact hacc
      · exact absurd hkv (List.not_mem_nil kv)
  | cons p rest ih =>
      intro acc hall hacc
      simp only [List.foldl_cons]
      have hp := hall p (List.mem_cons_self _ _)
      have hrest : ∀ kv ∈ rest, kv.2.createdAt < now ∨ kv.2 = m :=
        fun kv hkv => hall kv (List.mem_cons_of_mem _ hkv)
      refine ih _ hrest ?_
      rcases hacc with haccm | ⟨haccLt, ⟨kv, hkvmem, hkvm⟩⟩
      · by_cases hlt : acc.2.createdAt < p.2.createdAt
        · rw [if_pos hlt]
          rcases hp with hplt | hpm
          · rw [haccm, hm] at hlt
            omega
          · left; exact hpm
        · rw [if_neg hlt]
          left; exact haccm
      · rcases List.mem_cons.mp hkvmem with rfl | hkvrest
        · rw [if_pos (by rw [hkvm, hm]; exact haccLt)]
          left; exact hkvm
        · by_cases hlt : acc.2.createdAt < p.2.createdAt
          · rw [if_pos hlt]
            rcases hp with hplt | hpm
            · right; exact ⟨hplt, ⟨kv, hkvrest, hkvm⟩⟩
            · left; exact hpm
          · rw [if_neg hlt]
            right; exact ⟨haccLt, ⟨kv, hkvrest, hkvm⟩⟩

/-- C8.  `get_active_key` raises a `KeyManagementError` exactly when
the active set is empty; otherwise it returns the most recently created
key, so immediately after `rotate_keys` at a clock strictly past every
existing key''s creation instant it returns the key that rotation just
generated. -/
theorem c8_active_key_newest :
    (∀ st : KeyManagerState,
      (∃ e, getActiveKey st = Except.error e) ↔ st.activeKeys = []) ∧
    (∀ (st : KeyManagerState) (now : Int) (freshKey : Nat),
      (∀ kv ∈ st.activeKeys, kv.2.createdAt < now) →
      getActiveKey (rotateKeys now freshKey st).1 =
        Except.ok (rotateKeys now freshKey st).2) := by
  constructor
  · intro st
    unfold getActiveKey
    cases hak : st.activeKeys with
    | nil =>
        exact ⟨fun _ => rfl, fun _ => ⟨"No active keys available", rfl⟩⟩
    | cons kv rest =>
        constructor
        · intro ⟨e, he⟩
          exact Except.noConfusion he
        · intro hcontra
          exact List.noConfusion hcontra
  · intro st now freshKey hold
    have hpairmem : ("https://" ++ st.domain ++ "/keys/" ++ toString now,
        (rotateKeys now freshKey st).2) ∈
        (rotateKeys now freshKey st).1.activeKeys := by
      unfold rotateKeys generateKeyPair
      dsimp only []
      refine List.mem_filter.mpr ⟨mem_dictInsert_self _ _ _, ?_⟩
      simp only [Bool.not_eq_true', decide_eq_false_iff_not]
      have : (0 : Int) ≤ 86400 * (st.rotationIntervalDays : Int) := by
        positivity
      have : (0 : Int) ≤ 86400 * (st.keyOverlapDays : Int) := by
        positivity
      omega
    have hallnew : ∀ kv ∈ (rotateKeys now freshKey st).1.activeKeys,
        kv.2.createdAt < now ∨ kv.2 = (rotateKeys now freshKey st).2 := by
      intro kv hkv
      unfold rotateKeys generateKeyPair at hkv
      dsimp only [] at hkv
      rcases mem_dictInsert_eq (List.mem_filter.mp hkv).1 with rfl | hmem
      · right; rfl
      · left; exact hold kv hmem
    have hmcreated : (rotateKeys now freshKey st).2.createdAt = now := rfl
    cases hak : (rotateKeys now freshKey st).1.activeKeys with
    | nil =>
        rw [hak] at hpairmem
        exact absurd hpairmem (List.not_mem_nil _)
    | cons kv rest =>
        unfold getActiveKey
        rw [hak]
        simp only []
        rw [hak] at hallnew hpairmem
        have hacc : kv.2 = (rotateKeys now freshKey st).2 ∨
            (kv.2.createdAt < now ∧
              ∃ kv2 ∈ rest, kv2.2 = (rotateKeys now freshKey st).2) := by
          rcases hallnew kv (List.mem_cons_self _ _) with hlt | hm
          · rcases List.mem_cons.mp hpairmem with heq | hrest
            · left
              rw [← heq]
            · right
              exact ⟨hlt, ⟨_, hrest, rfl⟩⟩
          · left; exact hm
        rw [foldl_newest now (rotateKeys now freshKey st).2 hmcreated rest
          kv (fun kv2 hkv2 => hallnew kv2 (List.mem_cons_of_mem _ hkv2))
          hacc]

/-- The key manager of the C8 witness: one key created at time 0. -/
def stC8 : KeyManagerState :=
  { domain := "local.test", rotationIntervalDays := 30,
    keyOverlapDays := 2,
    activeKeys := [("https://local.test/keys/0",
      { keyNum := 1, createdAt := 0, expiresAt := 2592000,
        keyId := "https://local.test/keys/0" })] }

/-- C8 witness: rotating `stC8` at time 100 makes `get_active_key`
return the freshly generated key. -/
theorem c8_active_key_newest_witness :
    (∀ kv ∈ stC8.activeKeys, kv.2.createdAt < (100 : Int)) ∧
    getActiveKey (rotateKeys 100 5 stC8).1 =
      Except.ok (rotateKeys 100 5 stC8).2 :=
  ⟨by decide, c8_active_key_newest.2 stC8 100 5 (by decide)⟩

end PyFed
